import Mathlib

/-!
Shallow embedding of `src/docker/docker_image.go` (package `docker`):
the paginated repository-tag lister consisting of `MakeRepositoryTagsRequest`
(one page fetch-and-decode) and `GetRepositoryTags` (the pagination loop).

External collaborators (`dockerClient.makeRequest`, `net/url.Parse`, the
`tagsPath` format string defined elsewhere in the repository) are modelled
as parameters or as explicit models noted in their doc comments.
-/

namespace DockerTags

/-- Error taxonomy of the tag lister, mirroring the error returns of
`MakeRepositoryTagsRequest` and `GetRepositoryTags`.  `transport`,
`decodeFailure` and `urlParse` carry an abstract payload standing for the
opaque external error value propagated unchanged by the Go code. -/
inductive Err where
  | transport (e : Nat)
  | invalidStatus (code : Nat)
  | decodeFailure (e : Nat)
  | urlParse (e : Nat)
  | linkHeaderParse
  deriving DecidableEq

/-- Outcome of `json.NewDecoder(res.Body).Decode(tags)` on the `tagsRes`
struct: either a decode error, or the decoded `Tags` field.  `none` models a
Go `nil` slice (the `Tags` field absent or JSON `null`); `some l` models a
non-nil slice, possibly empty. -/
inductive Body where
  | decodeErr (e : Nat)
  | decoded (tags : Option (List String))
  deriving DecidableEq

/-- A response of the external `makeRequest` collaborator for one path:
either a transport-level error, or a response carrying a status code, a
body-decode outcome and the (possibly multi-valued) `Link` header. -/
inductive Resp where
  | transportErr (e : Nat)
  | ok (status : Nat) (body : Body) (link : List String)
  deriving DecidableEq

/-- The two components of a parsed `net/url.URL` that `GetRepositoryTags`
reads: `u.Path` and `u.RawQuery`. -/
structure URLParts where
  path : String
  rawQuery : String
  deriving DecidableEq

/-- Result of the external `url.Parse` collaborator: a parsed URL or an
opaque parse error (the `uerr` propagated by the Go code). -/
inductive URLRes where
  | ok (u : URLParts)
  | err (e : Nat)
  deriving DecidableEq

/-- `MakeRepositoryTagsRequest`: one request to the tag-listing endpoint at
`path` (src/docker/docker_image.go lines 45-69).  Returns the Go triple
`(tags.Tags, linkValue, err)`: transport errors and non-200 statuses and
decode errors yield `(nil, nil, err)`; on success the decoded `Tags` field
(possibly a nil slice) and the raw `Link` header values are returned. -/
def MakeRepositoryTagsRequest (fetch : String → Resp) (path : String) :
    Option (List String) × List String × Option Err :=
  match fetch path with
  | Resp.transportErr e => (none, [], some (Err.transport e))
  | Resp.ok status body link =>
    if status ≠ 200 then (none, [], some (Err.invalidStatus status))
    else
      match body with
      | Body.decodeErr e => (none, [], some (Err.decodeFailure e))
      | Body.decoded tags => (tags, link, none)

/-- One admissible split of the Go regexp `\A<(.+)>;(.+)\z` applied to
`'<' :: rest`: group 1 is `rest.take j`, the matched `>;` sits at positions
`j, j+1`, group 2 is `rest.drop (j+2)`.  Both groups must be nonempty and,
since `.` in a Go regexp does not match a newline, newline-free. -/
def validSplit (rest : List Char) (j : Nat) : Bool :=
  decide (1 ≤ j) && decide (rest[j]? = some '>') && decide (rest[j+1]? = some ';')
    && decide (j + 2 < rest.length)
    && decide ('\n' ∉ rest.take j) && decide ('\n' ∉ rest.drop (j+2))

/-- `nextLinkRegexp.FindStringSubmatch` (src line 76 and 94): the submatch
for group 1 of `\A<(.+)>;(.+)\z`, or `none` when the value does not match.
The first `(.+)` is greedy, so the split with the largest `j` wins. -/
def nextLinkMatch (s : String) : Option String :=
  match s.data with
  | [] => none
  | c :: rest =>
    if c = '<' then
      ((List.range rest.length).reverse.find? (validSplit rest)).map
        fun j => String.mk (rest.take j)
    else none

/-- Go `append(acc, xs...)` on a `[]string` modelled as `Option (List String)`
(`none` = nil slice): appending zero elements returns the slice unchanged
(nil stays nil); appending at least one element yields a non-nil slice. -/
def goAppend (acc : Option (List String)) (xs : List String) : Option (List String) :=
  if xs.isEmpty then acc else some (acc.getD [] ++ xs)

/-- The outcome of one run of the pagination loop, instrumented with the
list of paths fetched (one entry per call to `MakeRepositoryTagsRequest`,
in order).  `tags` and `err` are the Go return values of
`GetRepositoryTags`. -/
structure RunResult where
  tags : Option (List String)
  err : Option Err
  fetched : List String
  deriving DecidableEq

/-- The `for !done` loop of `GetRepositoryTags` (src lines 80-107), with the
mutable `path` and `result` as arguments and an explicit fuel bound (the Go
loop has no page ceiling; `none` means the fuel ran out before the loop
did).  Each iteration fetches, returns `(nil, err)` when the tag slice is
nil, appends the page's tags, stops when the `Link` header is absent, and
otherwise follows the first `Link` value through the regexp and `urlParse`. -/
def tagsLoop (fetch : String → Resp) (urlParse : String → URLRes) :
    Nat → String → Option (List String) → Option RunResult
  | 0, _, _ => none
  | fuel + 1, path, result =>
    match MakeRepositoryTagsRequest fetch path with
    | (none, _, err) => some ⟨none, err, [path]⟩
    | (some ts, linkValue, _) =>
      match linkValue with
      | [] => some ⟨goAppend result ts, none, [path]⟩
      | v :: _ =>
        match nextLinkMatch v with
        | none => some ⟨none, some Err.linkHeaderParse, [path]⟩
        | some m =>
          match urlParse m with
          | URLRes.err e => some ⟨none, some (Err.urlParse e), [path]⟩
          | URLRes.ok u =>
            (tagsLoop fetch urlParse fuel (u.path ++ "?" ++ u.rawQuery)
                (goAppend result ts)).map
              fun r => ⟨r.tags, r.err, path :: r.fetched⟩

/-- Modelled from the spec: the starting path of the listing (src line 78
formats the `tagsPath` constant, defined outside this excerpt, with the
repository name; per the spec the endpoint for repository `r` is
`/v2/r/tags/list`). -/
def tagsPathFor (repo : String) : String := "/v2/" ++ repo ++ "/tags/list"

/-- `GetRepositoryTags` (src lines 72-110): run the pagination loop from the
repository's tag-listing endpoint with a nil accumulator, returning the Go
pair `(result, err)`. -/
def GetRepositoryTags (fetch : String → Resp) (urlParse : String → URLRes)
    (fuel : Nat) (repo : String) : Option (Option (List String) × Option Err) :=
  (tagsLoop fetch urlParse fuel (tagsPathFor repo) none).map fun r => (r.tags, r.err)

/-- `GetRepositoryTags` together with the instrumented fetch trace. -/
def GetRepositoryTagsTrace (fetch : String → Resp) (urlParse : String → URLRes)
    (fuel : Nat) (repo : String) : Option RunResult :=
  tagsLoop fetch urlParse fuel (tagsPathFor repo) none

/-- Modelled from the spec: the external `net/url.Parse` collaborator,
restricted to the scheme-less, fragment-free references exercised here —
the path is everything before the first `?`, the raw query everything after
it (spec 4.2 f: extract the URL's path and query components). -/
def urlParseModel (s : String) : URLRes :=
  match (s.data).findIdx? (fun ch => ch == '?') with
  | none => URLRes.ok ⟨s, ""⟩
  | some i => URLRes.ok ⟨String.mk ((s.data).take i), String.mk ((s.data).drop (i+1))⟩

theorem nextLinkMatch_example :
    nextLinkMatch "</v2/r/tags/list?next=2>; rel=\"next\"" =
      some "/v2/r/tags/list?next=2" := by decide

theorem urlParseModel_example :
    urlParseModel "/v2/r/tags/list?next=2" =
      URLRes.ok ⟨"/v2/r/tags/list", "next=2"⟩ := by decide

/-- `Resp` with the `Link` header truncated to its first value. -/
def linkTrunc : Resp → Resp
  | Resp.transportErr e => Resp.transportErr e
  | Resp.ok s b l => Resp.ok s b (l.take 1)

/-- The spec's continuation-header shape `<...>;...`: a nonempty URL wrapped
in angle brackets, immediately followed by a semicolon and at least one
character of link-relation metadata. -/
def LinkShape (v : String) : Prop :=
  ∃ a b : List Char, a ≠ [] ∧ b ≠ [] ∧ v.data = '<' :: (a ++ '>' :: ';' :: b)

/-- A header-value list `ls` points the loop at path `q`: it is nonempty,
its first value matches the regexp with submatch `m`, `m` parses as a URL
`u`, and `q` is `u.path ++ "?" ++ u.rawQuery`. -/
def PointsTo (urlParse : String → URLRes) (ls : List String) (q : String) : Prop :=
  ∃ v rest m u, ls = v :: rest ∧ nextLinkMatch v = some m ∧
    urlParse m = URLRes.ok u ∧ q = u.path ++ "?" ++ u.rawQuery

/-- The path of the first page of `pages`, or `q` when `pages` is empty. -/
def startOf (pages : List (String × List String)) (q : String) : String :=
  match pages with
  | [] => q
  | (p, _) :: _ => p

/-- A chain of successfully decoded pages leading the loop from
`startOf pages q` to path `q`: page `i` lives at `(pages.get i).1`, decodes
to the non-nil tag array `(pages.get i).2`, and carries a `Link` header
pointing at the next page (at `q` for the last page of the list). -/
def ChainTo (fetch : String → Resp) (urlParse : String → URLRes) :
    List (String × List String) → String → Prop
  | [], _ => True
  | (p, ts) :: rest, q =>
    (∃ ls, fetch p = Resp.ok 200 (Body.decoded (some ts)) ls ∧
      PointsTo urlParse ls (startOf rest q)) ∧
    ChainTo fetch urlParse rest q

/-- A complete chain of pages: every page decodes to the indicated non-nil
tag array, every page but the last carries a `Link` header pointing at the
next page, and the last page carries no `Link` header at all. -/
def GoodChain (fetch : String → Resp) (urlParse : String → URLRes) :
    List (String × List String) → Prop
  | [] => True
  | [(p, ts)] => fetch p = Resp.ok 200 (Body.decoded (some ts)) []
  | (p, ts) :: (p2, ts2) :: rest =>
    (∃ ls, fetch p = Resp.ok 200 (Body.decoded (some ts)) ls ∧
      PointsTo urlParse ls p2) ∧
    GoodChain fetch urlParse ((p2, ts2) :: rest)

/-- Boolean test for `LinkShape`: some position `j` of `rest` carries `>`
immediately followed by `;`, with a nonempty prefix before it and a nonempty
tail after the `;`. -/
def hasShape (v : String) : Bool :=
  match v.data with
  | [] => false
  | c :: rest =>
    if c = '<' then
      (List.range rest.length).any fun j =>
        decide (1 ≤ j) && decide (rest[j]? = some '>') && decide (rest[j+1]? = some ';')
          && decide (j + 2 < rest.length)
    else false

theorem goAppend_nil (acc : Option (List String)) : goAppend acc [] = acc := rfl

theorem goAppend_assoc (acc : Option (List String)) (a b : List String) :
    goAppend (goAppend acc a) b = goAppend acc (a ++ b) := by
  cases a <;> cases b <;> simp [goAppend]

theorem mrtr_tags_some {fetch : String → Resp} {path : String}
    {ts : List String} {l : List String} {e : Option Err}
    (h : MakeRepositoryTagsRequest fetch path = (some ts, l, e)) :
    fetch path = Resp.ok 200 (Body.decoded (some ts)) l ∧ e = none := by
  unfold MakeRepositoryTagsRequest at h
  rcases hf : fetch path with e' | ⟨s, b, l'⟩ <;> rw [hf] at h
  · simp at h
  · by_cases hs : s = 200
    · subst hs
      simp only [ne_eq, not_true_eq_false, if_false, ite_false] at h
      cases b with
      | decodeErr e2 => simp at h
      | decoded t =>
        simp only [Prod.mk.injEq] at h
        obtain ⟨h1, h2, h3⟩ := h
        subst h1; subst h2; subst h3
        exact ⟨rfl, rfl⟩
    · simp [hs] at h

theorem mrtr_tags_none_err_none {fetch : String → Resp} {path : String}
    {l : List String}
    (h : MakeRepositoryTagsRequest fetch path = (none, l, none)) :
    fetch path = Resp.ok 200 (Body.decoded none) l := by
  unfold MakeRepositoryTagsRequest at h
  rcases hf : fetch path with e' | ⟨s, b, l'⟩ <;> rw [hf] at h
  · simp at h
  · by_cases hs : s = 200
    · subst hs
      simp only [ne_eq, not_true_eq_false, if_false, ite_false] at h
      cases b with
      | decodeErr e2 => simp at h
      | decoded t =>
        simp only [Prod.mk.injEq] at h
        obtain ⟨h1, h2, _⟩ := h
        subst h1; subst h2
        exact rfl
    · simp [hs] at h

theorem tagsLoop_step_nilTags {fetch : String → Resp} {urlParse : String → URLRes}
    {q : String} {ls : List String}
    (hfp : fetch q = Resp.ok 200 (Body.decoded none) ls)
    (fuel : Nat) (acc : Option (List String)) :
    tagsLoop fetch urlParse (fuel + 1) q acc = some ⟨none, none, [q]⟩ := by
  simp [tagsLoop, MakeRepositoryTagsRequest, hfp]

theorem tagsLoop_step_last {fetch : String → Resp} {urlParse : String → URLRes}
    {q : String} {ts : List String}
    (hfp : fetch q = Resp.ok 200 (Body.decoded (some ts)) [])
    (fuel : Nat) (acc : Option (List String)) :
    tagsLoop fetch urlParse (fuel + 1) q acc = some ⟨goAppend acc ts, none, [q]⟩ := by
  simp [tagsLoop, MakeRepositoryTagsRequest, hfp]

theorem tagsLoop_step_badStatus {fetch : String → Resp} {urlParse : String → URLRes}
    {q : String} {code : Nat} {body : Body} {ls : List String}
    (hfp : fetch q = Resp.ok code body ls) (hcode : code ≠ 200)
    (fuel : Nat) (acc : Option (List String)) :
    tagsLoop fetch urlParse (fuel + 1) q acc =
      some ⟨none, some (Err.invalidStatus code), [q]⟩ := by
  simp [tagsLoop, MakeRepositoryTagsRequest, hfp, hcode]

theorem tagsLoop_step_badLink {fetch : String → Resp} {urlParse : String → URLRes}
    {q : String} {ts : List String} {v : String} {vs : List String}
    (hfp : fetch q = Resp.ok 200 (Body.decoded (some ts)) (v :: vs))
    (hm : nextLinkMatch v = none)
    (fuel : Nat) (acc : Option (List String)) :
    tagsLoop fetch urlParse (fuel + 1) q acc =
      some ⟨none, some Err.linkHeaderParse, [q]⟩ := by
  simp [tagsLoop, MakeRepositoryTagsRequest, hfp, hm]

theorem tagsLoop_step_transport {fetch : String → Resp} {urlParse : String → URLRes}
    {q : String} {e : Nat}
    (hfp : fetch q = Resp.transportErr e)
    (fuel : Nat) (acc : Option (List String)) :
    tagsLoop fetch urlParse (fuel + 1) q acc =
      some ⟨none, some (Err.transport e), [q]⟩ := by
  simp [tagsLoop, MakeRepositoryTagsRequest, hfp]

theorem tagsLoop_step_decodeErr {fetch : String → Resp} {urlParse : String → URLRes}
    {q : String} {e : Nat} {ls : List String}
    (hfp : fetch q = Resp.ok 200 (Body.decodeErr e) ls)
    (fuel : Nat) (acc : Option (List String)) :
    tagsLoop fetch urlParse (fuel + 1) q acc =
      some ⟨none, some (Err.decodeFailure e), [q]⟩ := by
  simp [tagsLoop, MakeRepositoryTagsRequest, hfp]

theorem tagsLoop_step_urlErr {fetch : String → Resp} {urlParse : String → URLRes}
    {q : String} {ts : List String} {v : String} {vs : List String}
    {m : String} {e : Nat}
    (hfp : fetch q = Resp.ok 200 (Body.decoded (some ts)) (v :: vs))
    (hm : nextLinkMatch v = some m) (hu : urlParse m = URLRes.err e)
    (fuel : Nat) (acc : Option (List String)) :
    tagsLoop fetch urlParse (fuel + 1) q acc =
      some ⟨none, some (Err.urlParse e), [q]⟩ := by
  simp [tagsLoop, MakeRepositoryTagsRequest, hfp, hm, hu]

theorem tagsLoop_step_continue {fetch : String → Resp} {urlParse : String → URLRes}
    {q : String} {ts : List String} {v : String} {vs : List String}
    {m : String} {u : URLParts}
    (hfp : fetch q = Resp.ok 200 (Body.decoded (some ts)) (v :: vs))
    (hm : nextLinkMatch v = some m) (hu : urlParse m = URLRes.ok u)
    (fuel : Nat) (acc : Option (List String)) :
    tagsLoop fetch urlParse (fuel + 1) q acc =
      (tagsLoop fetch urlParse fuel (u.path ++ "?" ++ u.rawQuery)
          (goAppend acc ts)).map
        fun r => ⟨r.tags, r.err, q :: r.fetched⟩ := by
  simp [tagsLoop, MakeRepositoryTagsRequest, hfp, hm, hu]

theorem nextLinkMatch_nil {v : String} (hd : v.data = []) : nextLinkMatch v = none := by
  unfold nextLinkMatch
  rw [hd]

theorem nextLinkMatch_cons (c : Char) (rest : List Char) (v : String)
    (hd : v.data = c :: rest) :
    nextLinkMatch v =
      if c = '<' then
        ((List.range rest.length).reverse.find? (validSplit rest)).map
          fun j => String.mk (rest.take j)
      else none := by
  unfold nextLinkMatch
  rw [hd]

theorem hasShape_cons (c : Char) (rest : List Char) (v : String)
    (hd : v.data = c :: rest) :
    hasShape v =
      if c = '<' then
        (List.range rest.length).any fun j =>
          decide (1 ≤ j) && decide (rest[j]? = some '>') && decide (rest[j+1]? = some ';')
            && decide (j + 2 < rest.length)
      else false := by
  unfold hasShape
  rw [hd]

theorem drop_eq_cons_of_getElem {α : Type} {l : List α} {n : Nat} {a : α}
    (h : l[n]? = some a) : l.drop n = a :: l.drop (n + 1) := by
  obtain ⟨hlt, hget⟩ := List.getElem?_eq_some.mp h
  rw [List.drop_eq_getElem_cons hlt, hget]

theorem shape_of_conds {v : String} {rest : List Char} {j : Nat}
    (hd : v.data = '<' :: rest) (hj : 1 ≤ j)
    (hgt : rest[j]? = some '>') (hsc : rest[j+1]? = some ';')
    (hlen : j + 2 < rest.length) : LinkShape v := by
  have hjlen : j < rest.length := (List.getElem?_eq_some.mp hgt).1
  refine ⟨rest.take j, rest.drop (j+2), ?_, ?_, ?_⟩
  · apply List.length_pos.mp
    rw [List.length_take]
    omega
  · apply List.length_pos.mp
    rw [List.length_drop]
    omega
  · rw [hd]
    congr 1
    conv_lhs => rw [← List.take_append_drop j rest]
    rw [drop_eq_cons_of_getElem hgt, drop_eq_cons_of_getElem hsc]

theorem nextLinkMatch_some_shape {v m : String}
    (h : nextLinkMatch v = some m) : LinkShape v := by
  rcases hd : v.data with _ | ⟨c, rest⟩
  · rw [nextLinkMatch_nil hd] at h
    exact absurd h (by simp)
  · rw [nextLinkMatch_cons c rest v hd] at h
    by_cases hc : c = '<'
    · rw [if_pos hc] at h
      subst hc
      obtain ⟨j, hfind, -⟩ := Option.map_eq_some'.mp h
      have hvalid := List.find?_some hfind
      simp only [validSplit, Bool.and_eq_true, decide_eq_true_eq] at hvalid
      obtain ⟨⟨⟨⟨⟨h1, h2⟩, h3⟩, h4⟩, -⟩, -⟩ := hvalid
      exact shape_of_conds hd h1 h2 h3 h4
    · rw [if_neg hc] at h
      exact absurd h (by simp)

theorem hasShape_iff (v : String) : hasShape v = true ↔ LinkShape v := by
  constructor
  · intro h
    rcases hd : v.data with _ | ⟨c, rest⟩
    · rw [show hasShape v = false from by unfold hasShape; rw [hd]] at h
      exact absurd h (by simp)
    · rw [hasShape_cons c rest v hd] at h
      by_cases hc : c = '<'
      · rw [if_pos hc] at h
        subst hc
        obtain ⟨j, _, hj⟩ := List.any_eq_true.mp h
        simp only [Bool.and_eq_true, decide_eq_true_eq] at hj
        obtain ⟨⟨⟨h1, h2⟩, h3⟩, h4⟩ := hj
        exact shape_of_conds hd h1 h2 h3 h4
      · rw [if_neg hc] at h
        exact absurd h (by simp)
  · rintro ⟨a, b, ha, hb, hv⟩
    rw [hasShape_cons '<' (a ++ '>' :: ';' :: b) v hv, if_pos rfl]
    apply List.any_eq_true.mpr
    have hapos : 0 < a.length := List.length_pos.mpr ha
    have hbpos : 0 < b.length := List.length_pos.mpr hb
    refine ⟨a.length, List.mem_range.mpr (by simp), ?_⟩
    simp only [Bool.and_eq_true, decide_eq_true_eq]
    refine ⟨⟨⟨hapos, ?_⟩, ?_⟩, ?_⟩
    · rw [List.getElem?_append_right (Nat.le_refl a.length)]
      simp
    · rw [List.getElem?_append_right (by omega : a.length ≤ a.length + 1)]
      simp [Nat.add_sub_cancel_left]
    · simp
      omega

instance linkShapeDecidable (v : String) : Decidable (LinkShape v) :=
  decidable_of_iff (hasShape v = true) (hasShape_iff v)

theorem not_linkShape_match_none {v : String} (h : ¬ LinkShape v) :
    nextLinkMatch v = none := by
  cases hm : nextLinkMatch v with
  | none => rfl
  | some m => exact absurd (nextLinkMatch_some_shape hm) h

theorem tagsLoop_chainTo {fetch : String → Resp} {urlParse : String → URLRes} :
    ∀ (pages : List (String × List String)) (q : String),
      ChainTo fetch urlParse pages q → ∀ (fuel : Nat) (acc : Option (List String)),
      tagsLoop fetch urlParse (pages.length + fuel) (startOf pages q) acc =
        (tagsLoop fetch urlParse fuel q (goAppend acc (pages.map Prod.snd).flatten)).map
          fun r => ⟨r.tags, r.err, pages.map Prod.fst ++ r.fetched⟩
  | [], q, _, fuel, acc => by
    simp only [startOf, List.length_nil, Nat.zero_add, List.map_nil, List.flatten_nil,
      goAppend_nil, List.nil_append]
    cases tagsLoop fetch urlParse fuel q acc <;> simp
  | (p, ts) :: rest, q, hc, fuel, acc => by
    obtain ⟨⟨ls, hfp, hpt⟩, hrest⟩ := hc
    obtain ⟨v, vs, m, u, hls, hm, hu, hq⟩ := hpt
    subst hls
    have hlen : ((p, ts) :: rest).length + fuel = (rest.length + fuel) + 1 := by
      simp [List.length_cons]; omega
    rw [hlen]
    simp only [startOf]
    rw [tagsLoop_step_continue hfp hm hu (rest.length + fuel) acc, ← hq,
      tagsLoop_chainTo rest q hrest fuel (goAppend acc ts), goAppend_assoc]
    simp only [List.map_cons, List.flatten_cons]
    cases tagsLoop fetch urlParse fuel q (goAppend acc (ts ++ (rest.map Prod.snd).flatten)) with
    | none => simp
    | some r => simp

theorem goodChain_run {fetch : String → Resp} {urlParse : String → URLRes} :
    ∀ (pages : List (String × List String)), GoodChain fetch urlParse pages →
      ∀ (h : pages ≠ []) (fuel : Nat) (acc : Option (List String)),
      pages.length ≤ fuel →
      tagsLoop fetch urlParse fuel (pages.head h).1 acc =
        some ⟨goAppend acc (pages.map Prod.snd).flatten, none, pages.map Prod.fst⟩
  | [], _, h, _, _, _ => absurd rfl h
  | [(p, ts)], hg, _, fuel, acc, hfuel => by
    obtain ⟨f, rfl⟩ : ∃ f, fuel = f + 1 := ⟨fuel - 1, by simp at hfuel; omega⟩
    rw [List.head_cons, tagsLoop_step_last hg f acc]
    simp
  | (p, ts) :: (p2, ts2) :: rest, hg, _, fuel, acc, hfuel => by
    obtain ⟨⟨ls, hfp, hpt⟩, hrest⟩ := hg
    obtain ⟨v, vs, m, u, hls, hm, hu, hq⟩ := hpt
    subst hls
    obtain ⟨f, rfl⟩ : ∃ f, fuel = f + 1 := ⟨fuel - 1, by simp at hfuel; omega⟩
    have hih := goodChain_run ((p2, ts2) :: rest) hrest (by simp) f (goAppend acc ts)
      (by simp at hfuel ⊢; omega)
    rw [List.head_cons] at hih
    rw [List.head_cons, tagsLoop_step_continue hfp hm hu f acc, ← hq, hih, goAppend_assoc]
    simp

theorem getLast?_cons_of_getLast? {α : Type} {l : List α} {q : α} (x : α)
    (h : l.getLast? = some q) : (x :: l).getLast? = some q := by
  cases l with
  | nil => simp at h
  | cons y ys => rw [List.getLast?_cons_cons]; exact h

theorem tagsLoop_err_nil {fetch : String → Resp} {urlParse : String → URLRes} :
    ∀ (fuel : Nat) (path : String) (acc : Option (List String)) (r : RunResult) (e : Err),
      tagsLoop fetch urlParse fuel path acc = some r → r.err = some e → r.tags = none
  | 0, path, acc, r, e, h, _ => by simp [tagsLoop] at h
  | fuel + 1, path, acc, r, e, h, herr => by
    rcases hf : fetch path with e2 | ⟨s, b, l⟩
    · rw [tagsLoop_step_transport hf fuel acc] at h
      injection h with h
      subst h
      rfl
    · by_cases hs : s = 200
      · subst hs
        cases b with
        | decodeErr e2 =>
          rw [tagsLoop_step_decodeErr hf fuel acc] at h
          injection h with h
          subst h
          rfl
        | decoded t =>
          cases t with
          | none =>
            rw [tagsLoop_step_nilTags hf fuel acc] at h
            injection h with h
            subst h
            simp at herr
          | some ts =>
            cases l with
            | nil =>
              rw [tagsLoop_step_last hf fuel acc] at h
              injection h with h
              subst h
              simp at herr
            | cons v vs =>
              cases hnm : nextLinkMatch v with
              | none =>
                rw [tagsLoop_step_badLink hf hnm fuel acc] at h
                injection h with h
                subst h
                rfl
              | some m =>
                cases hup : urlParse m with
                | err e2 =>
                  rw [tagsLoop_step_urlErr hf hnm hup fuel acc] at h
                  injection h with h
                  subst h
                  rfl
                | ok u =>
                  rw [tagsLoop_step_continue hf hnm hup fuel acc] at h
                  simp only [Option.map_eq_some'] at h
                  obtain ⟨r2, h1, h2⟩ := h
                  subst h2
                  exact tagsLoop_err_nil fuel _ _ r2 e h1 herr
      · rw [tagsLoop_step_badStatus hf hs fuel acc] at h
        injection h with h
        subst h
        rfl

theorem tagsLoop_success_last {fetch : String → Resp} {urlParse : String → URLRes} :
    ∀ (fuel : Nat) (path : String) (acc : Option (List String)) (r : RunResult),
      tagsLoop fetch urlParse fuel path acc = some r → r.err = none →
      ∃ q, r.fetched.getLast? = some q ∧
        ((∃ ls, fetch q = Resp.ok 200 (Body.decoded none) ls) ∨
         (∃ ts, fetch q = Resp.ok 200 (Body.decoded (some ts)) []))
  | 0, path, acc, r, h, _ => by simp [tagsLoop] at h
  | fuel + 1, path, acc, r, h, herr => by
    rcases hf : fetch path with e2 | ⟨s, b, l⟩
    · rw [tagsLoop_step_transport hf fuel acc] at h
      injection h with h
      subst h
      simp at herr
    · by_cases hs : s = 200
      · subst hs
        cases b with
        | decodeErr e2 =>
          rw [tagsLoop_step_decodeErr hf fuel acc] at h
          injection h with h
          subst h
          simp at herr
        | decoded t =>
          cases t with
          | none =>
            rw [tagsLoop_step_nilTags hf fuel acc] at h
            injection h with h
            subst h
            exact ⟨path, by simp, Or.inl ⟨l, hf⟩⟩
          | some ts =>
            cases l with
            | nil =>
              rw [tagsLoop_step_last hf fuel acc] at h
              injection h with h
              subst h
              exact ⟨path, by simp, Or.inr ⟨ts, hf⟩⟩
            | cons v vs =>
              cases hnm : nextLinkMatch v with
              | none =>
                rw [tagsLoop_step_badLink hf hnm fuel acc] at h
                injection h with h
                subst h
                simp at herr
              | some m =>
                cases hup : urlParse m with
                | err e2 =>
                  rw [tagsLoop_step_urlErr hf hnm hup fuel acc] at h
                  injection h with h
                  subst h
                  simp at herr
                | ok u =>
                  rw [tagsLoop_step_continue hf hnm hup fuel acc] at h
                  simp only [Option.map_eq_some'] at h
                  obtain ⟨r2, h1, h2⟩ := h
                  subst h2
                  obtain ⟨q, hq, hor⟩ := tagsLoop_success_last fuel _ _ r2 h1 herr
                  exact ⟨q, getLast?_cons_of_getLast? path hq, hor⟩
      · rw [tagsLoop_step_badStatus hf hs fuel acc] at h
        injection h with h
        subst h
        simp at herr

theorem tagsLoop_linkTrunc {fetch : String → Resp} {urlParse : String → URLRes} :
    ∀ (fuel : Nat) (path : String) (acc : Option (List String)),
      tagsLoop (fun p => linkTrunc (fetch p)) urlParse fuel path acc =
        tagsLoop fetch urlParse fuel path acc
  | 0, _, _ => rfl
  | fuel + 1, path, acc => by
    rcases hf : fetch path with e | ⟨s, b, l⟩
    · simp [tagsLoop, MakeRepositoryTagsRequest, hf, linkTrunc]
    · by_cases hs : s = 200
      · subst hs
        cases b with
        | decodeErr e2 => simp [tagsLoop, MakeRepositoryTagsRequest, hf, linkTrunc]
        | decoded t =>
          cases t with
          | none => simp [tagsLoop, MakeRepositoryTagsRequest, hf, linkTrunc]
          | some ts =>
            cases l with
            | nil => simp [tagsLoop, MakeRepositoryTagsRequest, hf, linkTrunc]
            | cons v vs =>
              have hlt : (fun p => linkTrunc (fetch p)) path
                  = Resp.ok 200 (Body.decoded (some ts)) (v :: []) := by
                simp [linkTrunc, hf]
              cases hnm : nextLinkMatch v with
              | none =>
                rw [tagsLoop_step_badLink hlt hnm fuel acc,
                  tagsLoop_step_badLink hf hnm fuel acc]
              | some m =>
                cases hup : urlParse m with
                | err e2 =>
                  rw [tagsLoop_step_urlErr hlt hnm hup fuel acc,
                    tagsLoop_step_urlErr hf hnm hup fuel acc]
                | ok u =>
                  rw [tagsLoop_step_continue hlt hnm hup fuel acc,
                    tagsLoop_step_continue hf hnm hup fuel acc,
                    tagsLoop_linkTrunc fuel (u.path ++ "?" ++ u.rawQuery) (goAppend acc ts)]
      · simp [tagsLoop, MakeRepositoryTagsRequest, hf, hs, linkTrunc]

/-- The spec's example registry for repository `r`: page 1 at
`/v2/r/tags/list` with tags `a`,`b` and a continuation header, page 2 at
`/v2/r/tags/list?next=2` with tag `c` and no continuation header. -/
def fetchEx : String → Resp := fun p =>
  if p = "/v2/r/tags/list" then
    Resp.ok 200 (Body.decoded (some ["a", "b"])) ["</v2/r/tags/list?next=2>; rel=\"next\""]
  else if p = "/v2/r/tags/list?next=2" then
    Resp.ok 200 (Body.decoded (some ["c"])) []
  else Resp.transportErr 0

/-- A registry whose first page decodes to a nil `Tags` field while
carrying a well-formed continuation header. -/
def fetchNil : String → Resp := fun p =>
  if p = "/v2/r/tags/list" then
    Resp.ok 200 (Body.decoded none) ["</p2>; rel=next"]
  else if p = "/p2?" then
    Resp.ok 200 (Body.decoded (some ["z"])) []
  else Resp.transportErr 0

/-- A registry whose second page decodes to a nil `Tags` field while
carrying a well-formed continuation header; page 1 is well-formed. -/
def fetchNil2 : String → Resp := fun p =>
  if p = "/v2/r/tags/list" then
    Resp.ok 200 (Body.decoded (some ["a"])) ["</v2/r/tags/list?next=2>; rel=\"next\""]
  else if p = "/v2/r/tags/list?next=2" then
    Resp.ok 200 (Body.decoded none) ["</p3>; rel=next"]
  else Resp.transportErr 0

/-- A registry whose second page reports HTTP status 404. -/
def fetchBad : String → Resp := fun p =>
  if p = "/v2/r/tags/list" then
    Resp.ok 200 (Body.decoded (some ["a"])) ["</v2/r/tags/list?next=2>; rel=\"next\""]
  else if p = "/v2/r/tags/list?next=2" then
    Resp.ok 404 (Body.decoded (some ["never"])) []
  else Resp.transportErr 0

/-- A registry whose second page carries a malformed continuation-header
value (the spec's second example scenario, one page later). -/
def fetchMal : String → Resp := fun p =>
  if p = "/v2/r/tags/list" then
    Resp.ok 200 (Body.decoded (some ["a"])) ["</v2/r/tags/list?next=2>; rel=\"next\""]
  else if p = "/v2/r/tags/list?next=2" then
    Resp.ok 200 (Body.decoded (some ["x"])) ["malformed-value"]
  else Resp.transportErr 0

/-- A registry whose first page has an empty (zero-length, non-nil) tag
array and a continuation header. -/
def fetchEmpty : String → Resp := fun p =>
  if p = "/v2/r/tags/list" then
    Resp.ok 200 (Body.decoded (some [])) ["</v2/r/tags/list?next=2>; rel=\"next\""]
  else if p = "/v2/r/tags/list?next=2" then
    Resp.ok 200 (Body.decoded (some ["c"])) []
  else Resp.transportErr 0

/-- `fetchEx` with a second, decoy continuation-header value on page 1. -/
def fetchExTwoLinks : String → Resp := fun p =>
  if p = "/v2/r/tags/list" then
    Resp.ok 200 (Body.decoded (some ["a", "b"]))
      ["</v2/r/tags/list?next=2>; rel=\"next\"", "</decoy>; rel=\"next\""]
  else if p = "/v2/r/tags/list?next=2" then
    Resp.ok 200 (Body.decoded (some ["c"])) []
  else Resp.transportErr 0

/-- C1: for a chain of pages P1..Pk starting at the repository's tag-listing
endpoint, where every page's body decodes to a (non-nil) tag array, every
page but the last carries a continuation header pointing at the next page's
path, and the last page carries none, `GetRepositoryTags` succeeds with
exactly the concatenation of the pages' tag sequences in page order, and
fetches exactly the k page paths in order (in particular, a single page with
N tags and no continuation header yields exactly those N tags with exactly
one fetch). -/
theorem getRepositoryTags_chain (fetch : String → Resp) (urlParse : String → URLRes)
    (pages : List (String × List String)) (repo : String) (fuel : Nat)
    (hg : GoodChain fetch urlParse pages) (hne : pages ≠ [])
    (hstart : (pages.head hne).1 = tagsPathFor repo) (hfuel : pages.length ≤ fuel) :
    GetRepositoryTagsTrace fetch urlParse fuel repo =
      some ⟨goAppend none (pages.map Prod.snd).flatten, none, pages.map Prod.fst⟩ := by
  rw [GetRepositoryTagsTrace, ← hstart]
  exact goodChain_run pages hg hne fuel none hfuel

/-- Witness for C1 at the spec's example scenario: two pages for repository
`r`, result `a`,`b`,`c`, two fetches, second request path
`/v2/r/tags/list?next=2`. -/
theorem getRepositoryTags_chain_witness :
    GetRepositoryTagsTrace fetchEx urlParseModel 2 "r" =
      some ⟨some ["a", "b", "c"], none, ["/v2/r/tags/list", "/v2/r/tags/list?next=2"]⟩ := by
  have hg : GoodChain fetchEx urlParseModel
      [("/v2/r/tags/list", ["a", "b"]), ("/v2/r/tags/list?next=2", ["c"])] :=
    ⟨⟨["</v2/r/tags/list?next=2>; rel=\"next\""], by decide,
      "</v2/r/tags/list?next=2>; rel=\"next\"", [], "/v2/r/tags/list?next=2",
      ⟨"/v2/r/tags/list", "next=2"⟩, rfl, by decide, by decide, by decide⟩,
     by
      show fetchEx "/v2/r/tags/list?next=2" = Resp.ok 200 (Body.decoded (some ["c"])) []
      decide⟩
  exact (getRepositoryTags_chain fetchEx urlParseModel
    [("/v2/r/tags/list", ["a", "b"]), ("/v2/r/tags/list?next=2", ["c"])] "r" 2
    hg (by decide) (by decide) (by decide)).trans (by decide)

/-- C2 counterexample: a run that terminates with a nil error after fetching
a single page that carried a valid (regexp-matching, parseable)
continuation header — the nil-`Tags` quirk makes `GetRepositoryTags` stop
successfully early. -/
theorem success_despite_link_counterexample :
    GetRepositoryTagsTrace fetchNil urlParseModel 5 "r" =
        some ⟨none, none, ["/v2/r/tags/list"]⟩ ∧
      fetchNil "/v2/r/tags/list" =
        Resp.ok 200 (Body.decoded none) ["</p2>; rel=next"] ∧
      nextLinkMatch "</p2>; rel=next" = some "/p2" ∧
      urlParseModel "/p2" = URLRes.ok ⟨"/p2", ""⟩ :=
  ⟨by decide, by decide, by decide, by decide⟩

/-- C2 (amended): whenever `GetRepositoryTags` terminates with a nil error,
the most recently fetched page either decoded to a nil `Tags` field (the
success-with-no-tags quirk, which ignores any continuation header) or
carried zero continuation-header values; it never stops successfully while
the last page had both a non-nil tag array and a continuation header. -/
theorem getRepositoryTags_success_last_page (fetch : String → Resp)
    (urlParse : String → URLRes) (fuel : Nat) (repo : String) (r : RunResult)
    (h : GetRepositoryTagsTrace fetch urlParse fuel repo = some r)
    (herr : r.err = none) :
    ∃ q, r.fetched.getLast? = some q ∧
      ((∃ ls, fetch q = Resp.ok 200 (Body.decoded none) ls) ∨
       (∃ ts, fetch q = Resp.ok 200 (Body.decoded (some ts)) [])) :=
  tagsLoop_success_last fuel (tagsPathFor repo) none r h herr

/-- Witness for the amended C2 at the spec's example run. -/
theorem getRepositoryTags_success_last_page_witness :
    ∃ q, (["/v2/r/tags/list", "/v2/r/tags/list?next=2"] : List String).getLast? = some q ∧
      ((∃ ls, fetchEx q = Resp.ok 200 (Body.decoded none) ls) ∨
       (∃ ts, fetchEx q = Resp.ok 200 (Body.decoded (some ts)) [])) :=
  getRepositoryTags_success_last_page fetchEx urlParseModel 2 "r"
    ⟨some ["a", "b", "c"], none, ["/v2/r/tags/list", "/v2/r/tags/list?next=2"]⟩
    (by decide) (by decide)

/-- C3: when a reached page decodes to a nil `Tags` field,
`GetRepositoryTags` immediately returns a nil tag list with a nil error,
discarding the tags of every earlier page and ignoring any continuation
header on that page. -/
theorem getRepositoryTags_nil_tags (fetch : String → Resp) (urlParse : String → URLRes)
    (pages : List (String × List String)) (q repo : String) (ls : List String)
    (fuel : Nat)
    (hc : ChainTo fetch urlParse pages q)
    (hq : fetch q = Resp.ok 200 (Body.decoded none) ls)
    (hstart : startOf pages q = tagsPathFor repo) :
    GetRepositoryTagsTrace fetch urlParse (pages.length + (fuel + 1)) repo =
      some ⟨none, none, pages.map Prod.fst ++ [q]⟩ := by
  rw [GetRepositoryTagsTrace, ← hstart, tagsLoop_chainTo pages q hc (fuel + 1) none,
    tagsLoop_step_nilTags hq fuel _]
  rfl

/-- Witness for C3: one good page with tag `a`, then a nil-`Tags` page with
a continuation header — the run reports success with no tags. -/
theorem getRepositoryTags_nil_tags_witness :
    GetRepositoryTagsTrace fetchNil2 urlParseModel (1 + (0 + 1)) "r" =
      some ⟨none, none, [("/v2/r/tags/list", ["a"])].map Prod.fst ++
        ["/v2/r/tags/list?next=2"]⟩ :=
  getRepositoryTags_nil_tags fetchNil2 urlParseModel [("/v2/r/tags/list", ["a"])]
    "/v2/r/tags/list?next=2" "r" ["</p3>; rel=next"] 0
    ⟨⟨["</v2/r/tags/list?next=2>; rel=\"next\""], by decide,
      "</v2/r/tags/list?next=2>; rel=\"next\"", [], "/v2/r/tags/list?next=2",
      ⟨"/v2/r/tags/list", "next=2"⟩, rfl, by decide, by decide, by decide⟩,
     trivial⟩
    (by decide) (by decide)

/-- C4: whenever `GetRepositoryTags` returns a non-nil error, the returned
tag list is nil — no partial aggregate accompanies an error. -/
theorem getRepositoryTags_error_nil (fetch : String → Resp) (urlParse : String → URLRes)
    (fuel : Nat) (repo : String) (t : Option (List String)) (e : Err)
    (h : GetRepositoryTags fetch urlParse fuel repo = some (t, some e)) : t = none := by
  rw [GetRepositoryTags] at h
  obtain ⟨r, hr, hpair⟩ := Option.map_eq_some'.mp h
  have h1 : r.tags = t := congrArg Prod.fst hpair
  have h2 : r.err = some e := congrArg Prod.snd hpair
  rw [← h1]
  exact tagsLoop_err_nil fuel (tagsPathFor repo) none r e hr h2

/-- Witness for C4: a 404 on page 2 yields a nil tag list with the error. -/
theorem getRepositoryTags_error_nil_witness :
    GetRepositoryTags fetchBad urlParseModel 2 "r" =
        some (none, some (Err.invalidStatus 404)) ∧
      (none : Option (List String)) = none :=
  ⟨by decide, getRepositoryTags_error_nil fetchBad urlParseModel 2 "r" none
    (Err.invalidStatus 404) (by decide)⟩

/-- C5: when a reached page's first continuation-header value does not match
the shape `<...>;...` (nonempty bracketed URL, semicolon, nonempty
metadata), `GetRepositoryTags` fails with the malformed-continuation-header
error, and all tags accumulated so far (including that page's) are
discarded. -/
theorem getRepositoryTags_malformed_link (fetch : String → Resp)
    (urlParse : String → URLRes) (pages : List (String × List String))
    (q repo : String) (ts : List String) (v : String) (vs : List String)
    (fuel : Nat)
    (hc : ChainTo fetch urlParse pages q)
    (hq : fetch q = Resp.ok 200 (Body.decoded (some ts)) (v :: vs))
    (hshape : ¬ LinkShape v)
    (hstart : startOf pages q = tagsPathFor repo) :
    GetRepositoryTagsTrace fetch urlParse (pages.length + (fuel + 1)) repo =
      some ⟨none, some Err.linkHeaderParse, pages.map Prod.fst ++ [q]⟩ := by
  rw [GetRepositoryTagsTrace, ← hstart, tagsLoop_chainTo pages q hc (fuel + 1) none,
    tagsLoop_step_badLink hq (not_linkShape_match_none hshape) fuel _]
  rfl

/-- Witness for C5: page 1 contributes `a`, page 2 contributes `x` but its
header value `malformed-value` fails the shape — the run errors and the
result carries no tags. -/
theorem getRepositoryTags_malformed_link_witness :
    GetRepositoryTagsTrace fetchMal urlParseModel (1 + (0 + 1)) "r" =
      some ⟨none, some Err.linkHeaderParse, [("/v2/r/tags/list", ["a"])].map Prod.fst ++
        ["/v2/r/tags/list?next=2"]⟩ :=
  getRepositoryTags_malformed_link fetchMal urlParseModel [("/v2/r/tags/list", ["a"])]
    "/v2/r/tags/list?next=2" "r" ["x"] "malformed-value" [] 0
    ⟨⟨["</v2/r/tags/list?next=2>; rel=\"next\""], by decide,
      "</v2/r/tags/list?next=2>; rel=\"next\"", [], "/v2/r/tags/list?next=2",
      ⟨"/v2/r/tags/list", "next=2"⟩, rfl, by decide, by decide, by decide⟩,
     trivial⟩
    (by decide) (by decide) (by decide)

/-- C6: a reached page with a non-success status aborts the whole run with
the unexpected-status error carrying that code, whatever its body holds and
however many pages succeeded before it; the accumulated tags are dropped. -/
theorem getRepositoryTags_bad_status (fetch : String → Resp) (urlParse : String → URLRes)
    (pages : List (String × List String)) (q repo : String)
    (code : Nat) (body : Body) (ls : List String) (fuel : Nat)
    (hc : ChainTo fetch urlParse pages q)
    (hq : fetch q = Resp.ok code body ls) (hcode : code ≠ 200)
    (hstart : startOf pages q = tagsPathFor repo) :
    GetRepositoryTagsTrace fetch urlParse (pages.length + (fuel + 1)) repo =
      some ⟨none, some (Err.invalidStatus code), pages.map Prod.fst ++ [q]⟩ := by
  rw [GetRepositoryTagsTrace, ← hstart, tagsLoop_chainTo pages q hc (fuel + 1) none,
    tagsLoop_step_badStatus hq hcode fuel _]
  rfl

/-- Witness for C6: one successful page, then a 404. -/
theorem getRepositoryTags_bad_status_witness :
    GetRepositoryTagsTrace fetchBad urlParseModel (1 + (0 + 1)) "r" =
      some ⟨none, some (Err.invalidStatus 404), [("/v2/r/tags/list", ["a"])].map Prod.fst ++
        ["/v2/r/tags/list?next=2"]⟩ :=
  getRepositoryTags_bad_status fetchBad urlParseModel [("/v2/r/tags/list", ["a"])]
    "/v2/r/tags/list?next=2" "r" 404 (Body.decoded (some ["never"])) [] 0
    ⟨⟨["</v2/r/tags/list?next=2>; rel=\"next\""], by decide,
      "</v2/r/tags/list?next=2>; rel=\"next\"", [], "/v2/r/tags/list?next=2",
      ⟨"/v2/r/tags/list", "next=2"⟩, rfl, by decide, by decide, by decide⟩,
     trivial⟩
    (by decide) (by decide) (by decide)

/-- C7: when a page's first continuation-header value matches the regexp
with bracketed URL `m` and `m` parses to `u`, the loop's next request is
made at exactly `u.path ++ "?" ++ u.rawQuery` (the query appended after a
literal `?` even when empty). -/
theorem next_request_path (fetch : String → Resp) (urlParse : String → URLRes)
    (q : String) (ts : List String) (v : String) (vs : List String)
    (m : String) (u : URLParts) (fuel : Nat) (acc : Option (List String))
    (hq : fetch q = Resp.ok 200 (Body.decoded (some ts)) (v :: vs))
    (hm : nextLinkMatch v = some m) (hu : urlParse m = URLRes.ok u) :
    tagsLoop fetch urlParse (fuel + 1) q acc =
      (tagsLoop fetch urlParse fuel (u.path ++ "?" ++ u.rawQuery)
          (goAppend acc ts)).map
        fun r => ⟨r.tags, r.err, q :: r.fetched⟩ :=
  tagsLoop_step_continue hq hm hu fuel acc

/-- Witness for C7 at the spec's example: the second request path is exactly
`/v2/r/tags/list?next=2`. -/
theorem next_request_path_witness :
    tagsLoop fetchEx urlParseModel 2 "/v2/r/tags/list" none =
        (tagsLoop fetchEx urlParseModel 1 ("/v2/r/tags/list" ++ "?" ++ "next=2")
            (goAppend none ["a", "b"])).map
          (fun r => ⟨r.tags, r.err, "/v2/r/tags/list" :: r.fetched⟩) ∧
      "/v2/r/tags/list" ++ "?" ++ "next=2" = "/v2/r/tags/list?next=2" :=
  ⟨next_request_path fetchEx urlParseModel "/v2/r/tags/list" ["a", "b"]
    "</v2/r/tags/list?next=2>; rel=\"next\"" [] "/v2/r/tags/list?next=2"
    ⟨"/v2/r/tags/list", "next=2"⟩ 1 none (by decide) (by decide) (by decide),
   by decide⟩

/-- C8: only the first continuation-header value of each page affects the
run — two registries whose responses agree once every `Link` list is
truncated to its first value produce identical results, errors and fetch
sequences. -/
theorem only_first_link_used (f g : String → Resp) (urlParse : String → URLRes)
    (hagree : ∀ p, linkTrunc (f p) = linkTrunc (g p))
    (fuel : Nat) (path : String) (acc : Option (List String)) :
    tagsLoop f urlParse fuel path acc = tagsLoop g urlParse fuel path acc := by
  rw [← @tagsLoop_linkTrunc f urlParse fuel path acc,
    ← @tagsLoop_linkTrunc g urlParse fuel path acc]
  have hfg : (fun p => linkTrunc (f p)) = fun p => linkTrunc (g p) :=
    funext fun p => hagree p
  rw [hfg]

/-- Witness for C8: adding a decoy second header value to the example
registry's first page changes nothing. -/
theorem only_first_link_used_witness :
    tagsLoop fetchExTwoLinks urlParseModel 2 "/v2/r/tags/list" none =
      tagsLoop fetchEx urlParseModel 2 "/v2/r/tags/list" none :=
  only_first_link_used fetchExTwoLinks fetchEx urlParseModel
    (by
      intro p
      unfold fetchExTwoLinks fetchEx
      split_ifs <;> rfl)
    2 "/v2/r/tags/list" none

/-- C9: a page decoding to an empty (zero-length, non-nil) tag array with a
continuation header pointing at `q2` is valid: it contributes nothing to
the aggregate, introduces no failure, and the loop continues at `q2`. -/
theorem empty_page_continues (fetch : String → Resp) (urlParse : String → URLRes)
    (q q2 : String) (ls : List String) (fuel : Nat) (acc : Option (List String))
    (hq : fetch q = Resp.ok 200 (Body.decoded (some [])) ls)
    (hpt : PointsTo urlParse ls q2) :
    tagsLoop fetch urlParse (fuel + 1) q acc =
      (tagsLoop fetch urlParse fuel q2 acc).map
        fun r => ⟨r.tags, r.err, q :: r.fetched⟩ := by
  obtain ⟨v, vs, m, u, hls, hm, hu, hq2⟩ := hpt
  subst hls
  rw [tagsLoop_step_continue hq hm hu fuel acc, goAppend_nil, ← hq2]

/-- Witness for C9: an empty first page, pagination proceeding to page 2. -/
theorem empty_page_continues_witness :
    tagsLoop fetchEmpty urlParseModel 2 "/v2/r/tags/list" none =
      (tagsLoop fetchEmpty urlParseModel 1 "/v2/r/tags/list?next=2" none).map
        fun r => ⟨r.tags, r.err, "/v2/r/tags/list" :: r.fetched⟩ :=
  empty_page_continues fetchEmpty urlParseModel "/v2/r/tags/list"
    "/v2/r/tags/list?next=2" ["</v2/r/tags/list?next=2>; rel=\"next\""] 1 none
    (by decide)
    ⟨"</v2/r/tags/list?next=2>; rel=\"next\"", [], "/v2/r/tags/list?next=2",
      ⟨"/v2/r/tags/list", "next=2"⟩, rfl, by decide, by decide, by decide⟩

/-- C10: exactly HTTP status 200 counts as success — every transport-level
response with any other status code, other 2xx codes included, makes
`MakeRepositoryTagsRequest` return the unexpected-status error carrying
that code instead of a page result. -/
theorem status_not_200_errors (fetch : String → Resp) (path : String)
    (code : Nat) (body : Body) (ls : List String)
    (hq : fetch path = Resp.ok code body ls) (hcode : code ≠ 200) :
    MakeRepositoryTagsRequest fetch path =
      (none, [], some (Err.invalidStatus code)) := by
  simp [MakeRepositoryTagsRequest, hq, hcode]

/-- Witness for C10 at the 2xx codes 201 and 204. -/
theorem status_not_200_errors_witness :
    MakeRepositoryTagsRequest (fun _ => Resp.ok 201 (Body.decoded (some ["a"])) []) "/x" =
        (none, [], some (Err.invalidStatus 201)) ∧
      MakeRepositoryTagsRequest (fun _ => Resp.ok 204 (Body.decoded (some ["a"])) []) "/x" =
        (none, [], some (Err.invalidStatus 204)) :=
  ⟨status_not_200_errors _ "/x" 201 (Body.decoded (some ["a"])) [] rfl (by decide),
   status_not_200_errors _ "/x" 204 (Body.decoded (some ["a"])) [] rfl (by decide)⟩

end DockerTags
